import Mathlib

/-!
Shallow embedding of src/Prediction/rrg_toolkit.py (the RRG pipeline:
relative-strength ratios, JDK RS ratio/momentum, quadrant and signal
categorization, coordinate extraction with dead-reckoning extrapolation).

Modelling conventions:
* pandas Series / DataFrame columns are Lean lists of real numbers, in
  time order; a DataFrame keyed by instrument name is a lookup function
  from names to lists.
* float values are exact reals; a NaN-like undefined value (division by
  zero, insufficient rolling history) is modelled as the value none of
  an Option.
* Python exceptions are modelled by Option / Except results: none or
  Except.error is a raised exception.
* pandas positional indexing with an integer key on a date-indexed
  Series wraps negative positions Python-style; pyGet models this.
-/

/-- Elementwise float division as pandas performs it; a zero denominator
yields a NaN-like undefined value, modelled as none. -/
noncomputable def sdiv (a b : ℝ) : Option ℝ :=
  if b = 0 then none else some (a / b)

/-- Two-argument arctangent, numpy convention: atan2 y x is the angle of
the vector (x, y), i.e. the argument of the complex number x + y*I. -/
noncomputable def atan2 (y x : ℝ) : ℝ :=
  Complex.arg ⟨x, y⟩

/-- calculate_rs_ratios: divide every column of the price table by the
benchmark column. A missing benchmark key raises (KeyError), modelled as
none. Output keeps one (name, series) pair per input column. -/
noncomputable def calculate_rs_ratios (cols : List String) (prices : String → List ℝ)
    (benchmark : String) : Option (List (String × List (Option ℝ))) :=
  if benchmark ∈ cols then
    some (cols.map fun etf => (etf, List.zipWith sdiv (prices etf) (prices benchmark)))
  else none

/-- pandas Series.rolling(window=w).mean(): entry i is the mean of the w
values ending at position i, undefined (none) while fewer than w values
of history exist. -/
noncomputable def rolling_mean (w : ℕ) (data : List ℝ) : List (Option ℝ) :=
  (List.range data.length).map fun i =>
    if w ≤ i + 1 then some (((data.drop (i + 1 - w)).take w).sum / (w : ℝ)) else none

/-- calc_jdk_rs_ratio: MA50 / MA200 - 1, elementwise; undefined where
either moving average is undefined (or the denominator vanishes). -/
noncomputable def calc_jdk_rs_ratio (data : List ℝ) : List (Option ℝ) :=
  List.zipWith
    (fun a b =>
      match a, b with
      | some x, some y => (sdiv x y).map fun q => q - 1
      | _, _ => none)
    (rolling_mean 50 data) (rolling_mean 200 data)

/-- calc_jdk_rs_momentum: pandas Series.diff(20) on the JDK RS ratio
series: entry i is ratio i minus ratio (i - 20), undefined when either
term is undefined or i < 20. -/
def calc_jdk_rs_momentum (jdk_rs : List (Option ℝ)) : List (Option ℝ) :=
  (List.range jdk_rs.length).map fun i =>
    if 20 ≤ i then
      match (jdk_rs.get? (i - 20)).join, (jdk_rs.get? i).join with
      | some a, some b => some (b - a)
      | _, _ => none
    else none

/-- calculate_jdk_rs: raises ValueError on fewer than 200 points, else
returns the (ratio, momentum) pair of series. -/
noncomputable def calculate_jdk_rs (data : List ℝ) :
    Except String (List (Option ℝ) × List (Option ℝ)) :=
  if data.length < 200 then
    Except.error "Input data must have at least 200 data points"
  else
    Except.ok (calc_jdk_rs_ratio data, calc_jdk_rs_momentum (calc_jdk_rs_ratio data))

/-- categorize_point: quadrant of (x, y), ties toward the non-negative
quadrants, exactly as the Python if/elif chain. -/
noncomputable def categorize_point (x y : ℝ) : String :=
  if x ≥ 0 ∧ y ≥ 0 then "Leading"
  else if x < 0 ∧ y ≥ 0 then "Improving"
  else if x ≥ 0 ∧ y < 0 then "Weakening"
  else "Lagging"

/-- categorize_radius: Euclidean distance from the origin against a
circle radius. -/
noncomputable def categorize_radius (x y circle_radius : ℝ) : String :=
  if Real.sqrt (x ^ 2 + y ^ 2) ≤ circle_radius then "Weak" else "Strong"

/-- Positional indexing with an integer key as pandas performs it on a
date-indexed Series: nonnegative positions index from the front,
negative positions not below -length wrap to the end, anything else
raises (none). -/
def pyGet {α : Type*} (l : List α) (i : ℤ) : Option α :=
  if 0 ≤ i then l.get? i.toNat
  else if -(l.length : ℤ) ≤ i then l.get? (i + l.length).toNat
  else none

/-- The tuple extrapolate_coordinates returns: current point, projected
point, the moving-towards label of the actual next point, historic
point, and the quadrant of the projected displacement. -/
structure Extrap where
  x_point : ℝ
  y_point : ℝ
  projected_x : ℝ
  projected_y : ℝ
  moving_towards : String
  x_historic : ℝ
  y_historic : ℝ
  projected_category : String

/-- extrapolate_coordinates: reads the current point (index j), the
actual next point (j+1, classified as moving_towards), the historic
point (j-5), then projects the current point one historic-to-current
displacement further out via bearing angle and Euclidean length, and
classifies the projected displacement (x_change, y_change). The source
reuses the name projected_x for the next point before overwriting it;
here the next point is called next_x / next_y. -/
noncomputable def extrapolate_coordinates (x_series y_series : List ℝ) (j : ℤ) :
    Option Extrap := do
  let x_point ← pyGet x_series j
  let y_point ← pyGet y_series j
  let next_x ← pyGet x_series (j + 1)
  let next_y ← pyGet y_series (j + 1)
  let moving_towards := categorize_point next_x next_y
  let x_historic ← pyGet x_series (j - 5)
  let y_historic ← pyGet y_series (j - 5)
  let angle_historic_current := atan2 (y_point - y_historic) (x_point - x_historic)
  let length_historic_current :=
    Real.sqrt ((x_point - x_historic) ^ 2 + (y_point - y_historic) ^ 2)
  let length_current_projected := length_historic_current
  let projected_x := x_point + length_current_projected * Real.cos angle_historic_current
  let projected_y := y_point + length_current_projected * Real.sin angle_historic_current
  let x_change := projected_x - x_point
  let y_change := projected_y - y_point
  let projected_category := categorize_point x_change y_change
  return ⟨x_point, y_point, projected_x, projected_y, moving_towards,
    x_historic, y_historic, projected_category⟩

/-- The projection step of the spec in its own words: the projected
point is the current point translated by the historic-to-current
displacement, i.e. (2x - xh, 2y - yh). -/
def spec_dead_reckoning (x y xh yh : ℝ) : ℝ × ℝ :=
  (x + (x - xh), y + (y - yh))

/-- One row of the coordinate table that extract_coordinates
accumulates; the Date column carries the timestamp from the series
index, modelled as a natural number. -/
structure Record where
  etf : String
  date : ℕ
  current_x : ℝ
  current_y : ℝ
  current_category : String
  current_signal : String
  historic_x : ℝ
  historic_y : ℝ
  angle : ℝ
  projected_x : ℝ
  projected_y : ℝ
  projected_category : String
  projected_signal : String

/-- Sequential mapping over a list where every step may raise; the
first raise aborts the whole run, like an uncaught Python exception
escaping a loop. -/
def mapOpt {α β : Type*} (f : α → Option β) : List α → Option (List β)
  | [] => some []
  | a :: as =>
    match f a with
    | none => none
    | some b =>
      match mapOpt f as with
      | none => none
      | some bs => some (b :: bs)

/-- The inner loop of extract_coordinates for one instrument: one
record per j in range(trailing_days, len(x_series) - 1). The record's
Projected Category column receives the moving_towards label and its
Projected Signal Strength column reuses the current signal. -/
noncomputable def extract_one (etf : String) (x_series y_series : List ℝ)
    (dates : List ℕ) (trailing_days : ℕ) (circle_radius : ℝ) : Option (List Record) :=
  mapOpt
    (fun j : ℕ => do
      let e ← extrapolate_coordinates x_series y_series (j : ℤ)
      let d ← pyGet dates (j : ℤ)
      let category := categorize_point e.x_point e.y_point
      let signal := categorize_radius e.x_point e.y_point circle_radius
      return ⟨etf, d, e.x_point, e.y_point, category, signal, e.x_historic, e.y_historic,
        atan2 (e.y_point - e.y_historic) (e.x_point - e.x_historic),
        e.projected_x, e.projected_y, e.moving_towards, signal⟩)
    (List.range' trailing_days (x_series.length - 1 - trailing_days))

/-- extract_coordinates: loops over the instruments, looks up each
instrument's ratio series (x), momentum series (y) and date index, and
concatenates the per-instrument record lists; rs_ratios is accepted but
unused, as in the source. -/
noncomputable def extract_coordinates (etf_names : List String)
    (jdk_rs_ratios jdk_rs_momentums : String → List ℝ) (rs_ratios : String → List ℝ)
    (dates : String → List ℕ) (trailing_days : ℕ) (circle_radius : ℝ) :
    Option (List Record) :=
  (mapOpt
      (fun etf =>
        extract_one etf (jdk_rs_ratios etf) (jdk_rs_momentums etf) (dates etf)
          trailing_days circle_radius)
      etf_names).map List.flatten

/-- Concrete x-series of length 22 for the concrete runs: x[15] = 1,
x[20] = 0, x[21] = 1. -/
noncomputable def cxs : List ℝ :=
  [0, 0, 0, 0, 0, 0, 0, 0, 0, 0, 0, 0, 0, 0, 0, 1, 0, 0, 0, 0, 0, 1]

/-- Concrete y-series of length 22: all zeros. -/
noncomputable def cys : List ℝ :=
  [0, 0, 0, 0, 0, 0, 0, 0, 0, 0, 0, 0, 0, 0, 0, 0, 0, 0, 0, 0, 0, 0]

/-- Claim C10: categorize_point returns Leading iff x ≥ 0 and y ≥ 0,
Improving iff x < 0 and y ≥ 0, Weakening iff x ≥ 0 and y < 0, and
Lagging iff x < 0 and y < 0, for all real x and y. -/
theorem categorize_point_quadrants (x y : ℝ) :
    (categorize_point x y = "Leading" ↔ x ≥ 0 ∧ y ≥ 0) ∧
    (categorize_point x y = "Improving" ↔ x < 0 ∧ y ≥ 0) ∧
    (categorize_point x y = "Weakening" ↔ x ≥ 0 ∧ y < 0) ∧
    (categorize_point x y = "Lagging" ↔ x < 0 ∧ y < 0) := by
  unfold categorize_point
  rcases le_or_lt 0 x with hx | hx <;> rcases le_or_lt 0 y with hy | hy
  · simp [hx, hy, not_lt.mpr hx, not_lt.mpr hy]
  · simp [hx, hy, not_le.mpr hy, not_lt.mpr hx]
  · simp [hx, hy, not_le.mpr hx, not_lt.mpr hy]
  · simp [hx, hy, not_le.mpr hx, not_le.mpr hy]

/-- Claim C5: calculate_jdk_rs raises the ValueError "insufficient data"
exactly when the input series has fewer than 200 points; in particular
it raises nothing at length exactly 200. -/
theorem calculate_jdk_rs_error_iff (data : List ℝ) :
    calculate_jdk_rs data = Except.error "Input data must have at least 200 data points" ↔
      data.length < 200 := by
  unfold calculate_jdk_rs
  split
  · simp_all
  · simp_all

/-- Claim C6, counterexample: as stated the claim quantifies over every
real circle_radius, but for the negative radius -1 at the origin the
code returns Strong while x^2 + y^2 ≤ r^2 holds, so the stated
equivalence fails. -/
theorem categorize_radius_neg_radius_cx :
    ¬ (categorize_radius 0 0 (-1) = "Weak" ↔ (0 : ℝ) ^ 2 + 0 ^ 2 ≤ (-1 : ℝ) ^ 2) := by
  have h : categorize_radius 0 0 (-1) = "Strong" := by
    unfold categorize_radius
    rw [if_neg]
    norm_num
  rw [h]
  intro hiff
  exact absurd (hiff.mpr (by norm_num)) (by decide)

/-- Claim C6 (amended): for every nonnegative circle_radius r,
categorize_radius x y r returns Weak iff x^2 + y^2 ≤ r^2 and Strong
otherwise; the boundary point (0.1, 0) with r = 0.1 is Weak. -/
theorem categorize_radius_weak_iff (x y r : ℝ) (hr : 0 ≤ r) :
    (categorize_radius x y r = "Weak" ↔ x ^ 2 + y ^ 2 ≤ r ^ 2) ∧
    (categorize_radius x y r = "Strong" ↔ ¬ (x ^ 2 + y ^ 2 ≤ r ^ 2)) := by
  unfold categorize_radius
  have hiff : Real.sqrt (x ^ 2 + y ^ 2) ≤ r ↔ x ^ 2 + y ^ 2 ≤ r ^ 2 := by
    rw [Real.sqrt_le_iff]
    exact and_iff_right hr
  split
  · next h => simp [hiff.mp h]
  · next h => simp [(not_iff_not.mpr hiff).mp h]

/-- Claim C6, witness: the amended theorem applied at the boundary point
(0.1, 0) with the default radius 0.1 classifies it Weak. -/
theorem categorize_radius_weak_witness :
    categorize_radius 0.1 0 0.1 = "Weak" :=
  (categorize_radius_weak_iff 0.1 0 0.1 (by norm_num)).1.mpr (by norm_num)

/-- Dividing a series elementwise by itself yields the constant series
1.0 wherever the value is nonzero. -/
lemma zipWith_sdiv_self (l : List ℝ) (h : ∀ p ∈ l, p ≠ 0) :
    List.zipWith sdiv l l = List.replicate l.length (some (1 : ℝ)) := by
  induction l with
  | nil => rfl
  | cons p l ih =>
    have hp : p ≠ 0 := h p (List.mem_cons_self p l)
    have ih' := ih fun q hq => h q (List.mem_cons_of_mem p hq)
    rw [List.zipWith_cons_cons, ih', List.length_cons, List.replicate_succ]
    simp [sdiv, hp, div_self hp]

/-- Claim C7, counterexample: with a benchmark price of 0 at some
timestamp the benchmark's own ratio column holds the undefined value
0/0 (NaN), not 1.0, at that timestamp. -/
theorem calculate_rs_ratios_zero_cx :
    calculate_rs_ratios ["B"] (fun _ => [(0 : ℝ)]) "B" = some [("B", [none])] ∧
      (none : Option ℝ) ≠ some 1 := by
  constructor
  · simp [calculate_rs_ratios, sdiv]
  · simp

/-- Claim C7 (amended): when the benchmark column is present and its
prices are all nonzero, the output column for the benchmark itself is
the constant series 1.0 at every timestamp of the input index. -/
theorem calculate_rs_ratios_benchmark (cols : List String) (prices : String → List ℝ)
    (benchmark : String) (hmem : benchmark ∈ cols)
    (hnz : ∀ p ∈ prices benchmark, p ≠ 0) :
    ∃ out, calculate_rs_ratios cols prices benchmark = some out ∧
      ∀ s ∈ out, s.1 = benchmark →
        s.2 = List.replicate (prices benchmark).length (some (1 : ℝ)) := by
  unfold calculate_rs_ratios
  rw [if_pos hmem]
  refine ⟨_, rfl, ?_⟩
  intro s hs hbench
  rcases List.mem_map.mp hs with ⟨etf, _, rfl⟩
  dsimp only at hbench ⊢
  subst hbench
  exact zipWith_sdiv_self _ hnz

/-- Claim C7, witness: a concrete one-column table whose benchmark
price is the nonzero constant 1. -/
theorem calculate_rs_ratios_benchmark_witness :
    ∃ out, calculate_rs_ratios ["B"] (fun _ => [(1 : ℝ)]) "B" = some out ∧
      ∀ s ∈ out, s.1 = "B" → s.2 = List.replicate 1 (some (1 : ℝ)) :=
  calculate_rs_ratios_benchmark ["B"] (fun _ => [(1 : ℝ)]) "B" (by simp)
    (by intro p hp; simp at hp; simp [hp])

/-- The entry of a rolling mean at a valid position. -/
lemma rolling_mean_get? (w : ℕ) (data : List ℝ) (i : ℕ) (h : i < data.length) :
    (rolling_mean w data).get? i =
      some (if w ≤ i + 1 then
              some (((data.drop (i + 1 - w)).take w).sum / (w : ℝ))
            else none) := by
  unfold rolling_mean
  rw [List.get?_map, List.get?_range h]
  rfl

/-- A nonempty window of a positive series has positive sum. -/
lemma window_sum_pos (data : List ℝ) (hpos : ∀ x ∈ data, 0 < x) (k w : ℕ)
    (hk : k < data.length) (hw : 0 < w) :
    0 < ((data.drop k).take w).sum := by
  apply List.sum_pos
  · intro x hx
    exact hpos x (List.mem_of_mem_drop (List.mem_of_mem_take hx))
  · intro hnil
    have hlen : ((data.drop k).take w).length = 0 := by rw [hnil]; rfl
    rw [List.length_take, List.length_drop] at hlen
    omega

/-- The entry of the JDK RS ratio series at a valid position. -/
lemma calc_jdk_rs_ratio_get? (data : List ℝ) (i : ℕ) (h : i < data.length) :
    (calc_jdk_rs_ratio data).get? i =
      some (if 200 ≤ i + 1 then
              (sdiv (((data.drop (i + 1 - 50)).take 50).sum / (50 : ℝ))
                  (((data.drop (i + 1 - 200)).take 200).sum / (200 : ℝ))).map
                (fun q => q - 1)
            else none) := by
  unfold calc_jdk_rs_ratio
  rw [List.get?_zipWith', rolling_mean_get? 50 data i h, rolling_mean_get? 200 data i h]
  by_cases h200 : 200 ≤ i + 1
  · rw [if_pos h200, if_pos (show 50 ≤ i + 1 by omega), if_pos h200]
    rfl
  · rw [if_neg h200, if_neg h200]
    by_cases h50 : 50 ≤ i + 1
    · rw [if_pos h50]
      rfl
    · rw [if_neg h50]
      rfl

/-- The JDK RS ratio series has the length of its input. -/
lemma calc_jdk_rs_ratio_length (data : List ℝ) :
    (calc_jdk_rs_ratio data).length = data.length := by
  unfold calc_jdk_rs_ratio rolling_mean
  simp

/-- Before position 199 the JDK RS ratio is undefined. -/
lemma calc_jdk_rs_ratio_entry_lt (data : List ℝ) (j : ℕ) (hj : j < data.length)
    (h199 : j < 199) : (calc_jdk_rs_ratio data).get? j = some none := by
  rw [calc_jdk_rs_ratio_get? data j hj, if_neg (by omega)]

/-- From position 199 on, over a positive series, the JDK RS ratio is
defined. -/
lemma calc_jdk_rs_ratio_entry_ge (data : List ℝ) (hpos : ∀ x ∈ data, 0 < x) (j : ℕ)
    (hj : j < data.length) (h199 : 199 ≤ j) :
    ∃ v, (calc_jdk_rs_ratio data).get? j = some (some v) := by
  rw [calc_jdk_rs_ratio_get? data j hj, if_pos (by omega)]
  have hden : 0 < ((data.drop (j + 1 - 200)).take 200).sum / (200 : ℝ) := by
    apply div_pos _ (by norm_num)
    exact window_sum_pos data hpos (j + 1 - 200) 200 (by omega) (by norm_num)
  simp only [sdiv, if_neg (ne_of_gt hden), Option.map_some']
  exact ⟨_, rfl⟩

/-- The entry of the JDK RS momentum series at a valid position. -/
lemma calc_jdk_rs_momentum_get? (r : List (Option ℝ)) (i : ℕ) (h : i < r.length) :
    (calc_jdk_rs_momentum r).get? i =
      some (if 20 ≤ i then
              match (r.get? (i - 20)).join, (r.get? i).join with
              | some a, some b => some (b - a)
              | _, _ => none
            else none) := by
  unfold calc_jdk_rs_momentum
  rw [List.get?_map, List.get?_range h]
  rfl

/-- Claim C2 (amended): over a positive series of length at least 200,
the RS Ratio is undefined for exactly the first 199 timestamps (it is
defined from the 200th timestamp on, index 199), and the RS Momentum is
additionally undefined for exactly the first 20 timestamps after the
RS Ratio becomes defined (defined from index 219 on). -/
theorem calc_jdk_rs_defined_iff (data : List ℝ) (hlen : 200 ≤ data.length)
    (hpos : ∀ x ∈ data, 0 < x) (i : ℕ) (hi : i < data.length) :
    ((calc_jdk_rs_ratio data).get? i = some none ↔ i < 199) ∧
    ((calc_jdk_rs_momentum (calc_jdk_rs_ratio data)).get? i = some none ↔ i < 219) := by
  constructor
  · by_cases h : i < 199
    · rw [calc_jdk_rs_ratio_entry_lt data i hi h]
      simpa using h
    · obtain ⟨v, hv⟩ := calc_jdk_rs_ratio_entry_ge data hpos i hi (by omega)
      rw [hv]
      simp [h]
  · rw [calc_jdk_rs_momentum_get? _ i (by rw [calc_jdk_rs_ratio_length]; exact hi)]
    by_cases h20 : 20 ≤ i
    · by_cases h219 : 219 ≤ i
      · obtain ⟨a, ha⟩ := calc_jdk_rs_ratio_entry_ge data hpos (i - 20) (by omega) (by omega)
        obtain ⟨b, hb⟩ := calc_jdk_rs_ratio_entry_ge data hpos i hi (by omega)
        rw [if_pos h20, ha, hb]
        show some (some (b - a)) = some none ↔ i < 219
        constructor
        · intro hc
          cases Option.some.inj hc
        · intro hc
          omega
      · have ha : (calc_jdk_rs_ratio data).get? (i - 20) = some none :=
          calc_jdk_rs_ratio_entry_lt data (i - 20) (by omega) (by omega)
        rw [if_pos h20, ha]
        show some none = some none ↔ i < 219
        constructor
        · intro _
          omega
        · intro _
          rfl
    · rw [if_neg h20]
      show some none = some none ↔ i < 219
      constructor
      · intro _
        omega
      · intro _
        rfl

/-- Claim C2, counterexample: on the constant series of 200 ones the RS
Ratio is already defined (with value 0) at index 199, which is the
200th timestamp, so the ratio is not absent for the first 200
timestamps. -/
theorem calc_jdk_rs_ratio_200th_cx :
    (calc_jdk_rs_ratio (List.replicate 200 (1 : ℝ))).get? 199 = some (some 0) := by
  rw [calc_jdk_rs_ratio_get? _ 199 (by simp only [List.length_replicate]; norm_num),
    if_pos (by omega)]
  norm_num [List.drop_replicate, List.take_replicate, List.sum_replicate, sdiv]

/-- Claim C2, witness: the amended theorem applied to the constant
series of 220 ones at index 0, where the RS Ratio is undefined. -/
theorem calc_jdk_rs_defined_iff_witness :
    (calc_jdk_rs_ratio (List.replicate 220 (1 : ℝ))).get? 0 = some none :=
  ((calc_jdk_rs_defined_iff (List.replicate 220 (1 : ℝ))
      (by simp only [List.length_replicate]; norm_num)
      (by intro x hx; rw [List.eq_of_mem_replicate hx]; norm_num) 0
      (by simp only [List.length_replicate]; norm_num)).1).mpr
    (by norm_num)

/-- pyGet succeeds exactly on positions in [-length, length). -/
lemma pyGet_isSome_iff {α : Type*} (l : List α) (i : ℤ) :
    (pyGet l i).isSome = true ↔ -(l.length : ℤ) ≤ i ∧ i < (l.length : ℤ) := by
  have hs : ∀ n : ℕ, (l.get? n).isSome = true ↔ n < l.length := by
    intro n
    rw [Option.isSome_iff_ne_none, Ne, List.get?_eq_none]
    omega
  unfold pyGet
  by_cases h0 : 0 ≤ i
  · rw [if_pos h0, hs]
    omega
  · rw [if_neg h0]
    by_cases h1 : -(l.length : ℤ) ≤ i
    · rw [if_pos h1, hs]
      omega
    · rw [if_neg h1]
      simp only [Option.isSome_none, Bool.false_eq_true, false_iff]
      omega

/-- At a plain in-range position pyGet is list lookup. -/
lemma pyGet_natCast {α : Type*} (l : List α) (n : ℕ) :
    pyGet l (n : ℤ) = l.get? n := by
  unfold pyGet
  rw [if_pos (Int.natCast_nonneg n), Int.toNat_natCast]

/-- Polar decomposition, x-component: mapping the displacement (dx, dy)
through its own bearing angle and Euclidean length returns dx exactly. -/
lemma length_mul_cos_atan2 (dy dx : ℝ) :
    Real.sqrt (dx ^ 2 + dy ^ 2) * Real.cos (atan2 dy dx) = dx := by
  have habs : Complex.abs ⟨dx, dy⟩ = Real.sqrt (dx ^ 2 + dy ^ 2) := by
    rw [Complex.abs_apply, Complex.normSq_mk]
    ring_nf
  rw [atan2, ← habs]
  exact Complex.abs_mul_cos_arg ⟨dx, dy⟩

/-- Polar decomposition, y-component. -/
lemma length_mul_sin_atan2 (dy dx : ℝ) :
    Real.sqrt (dx ^ 2 + dy ^ 2) * Real.sin (atan2 dy dx) = dy := by
  have habs : Complex.abs ⟨dx, dy⟩ = Real.sqrt (dx ^ 2 + dy ^ 2) := by
    rw [Complex.abs_apply, Complex.normSq_mk]
    ring_nf
  rw [atan2, ← habs]
  exact Complex.abs_mul_sin_arg ⟨dx, dy⟩

/-- Field equations of a successful extrapolation: current and historic
points come from the series at j and j - 5, moving_towards classifies
the actual next point at j + 1, the projection collapses to one
historic-to-current displacement past the current point, and
projected_category classifies the projected displacement. -/
lemma extrapolate_fields (x_series y_series : List ℝ) (j : ℤ) (e : Extrap)
    (h : extrapolate_coordinates x_series y_series j = some e) :
    pyGet x_series j = some e.x_point ∧ pyGet y_series j = some e.y_point ∧
    pyGet x_series (j - 5) = some e.x_historic ∧
    pyGet y_series (j - 5) = some e.y_historic ∧
    (∃ nx ny, pyGet x_series (j + 1) = some nx ∧ pyGet y_series (j + 1) = some ny ∧
      e.moving_towards = categorize_point nx ny) ∧
    e.projected_x = e.x_point + (e.x_point - e.x_historic) ∧
    e.projected_y = e.y_point + (e.y_point - e.y_historic) ∧
    e.projected_category =
      categorize_point (e.projected_x - e.x_point) (e.projected_y - e.y_point) := by
  unfold extrapolate_coordinates at h
  simp only [Option.bind_eq_bind, Option.bind_eq_some, Option.pure_def,
    Option.some.injEq] at h
  obtain ⟨x, hx, y, hy, nx, hnx, ny, hny, xh, hxh, yh, hyh, he⟩ := h
  subst he
  refine ⟨hx, hy, hxh, hyh, ⟨nx, ny, hnx, hny, rfl⟩, ?_, ?_, ?_⟩
  · dsimp only
    rw [length_mul_cos_atan2]
  · dsimp only
    rw [length_mul_sin_atan2]
  · rfl

/-- Claim C3: whenever extrapolate_coordinates succeeds, its projected
point computed by arctan2 / Euclidean length equals the linear
dead-reckoning extrapolation (2 x[j] - x[j-5], 2 y[j] - y[j-5]) of the
current and historic points, in exact real arithmetic. -/
theorem extrapolate_dead_reckoning (x_series y_series : List ℝ) (j : ℤ) (e : Extrap)
    (h : extrapolate_coordinates x_series y_series j = some e) :
    pyGet x_series j = some e.x_point ∧ pyGet y_series j = some e.y_point ∧
    pyGet x_series (j - 5) = some e.x_historic ∧
    pyGet y_series (j - 5) = some e.y_historic ∧
    (e.projected_x, e.projected_y) =
      spec_dead_reckoning e.x_point e.y_point e.x_historic e.y_historic := by
  obtain ⟨h1, h2, h3, h4, -, h6, h7, -⟩ := extrapolate_fields _ _ _ _ h
  refine ⟨h1, h2, h3, h4, ?_⟩
  unfold spec_dead_reckoning
  rw [h6, h7]

/-- Claim C3, witness: the dead-reckoning equation holds at index 5 of a
concrete pair of series. -/
theorem extrapolate_dead_reckoning_witness :
    ∃ e, extrapolate_coordinates [0, 0, 0, 0, 0, 1, 2] [0, 3, 0, 0, 0, 0, 4] 5 = some e ∧
      (e.projected_x, e.projected_y) =
        spec_dead_reckoning e.x_point e.y_point e.x_historic e.y_historic := by
  have h : (extrapolate_coordinates [0, 0, 0, 0, 0, 1, 2] [0, 3, 0, 0, 0, 0, 4] 5).isSome =
      true := rfl
  obtain ⟨e, he⟩ := Option.isSome_iff_exists.mp h
  exact ⟨e, he, (extrapolate_dead_reckoning _ _ _ _ he).2.2.2.2⟩

/-- extrapolate_coordinates succeeds exactly on the window
[-length + 5, length - 2] of current indices (series of equal length):
every one of the six accesses must land in the pandas positional range
[-length, length). -/
lemma extrapolate_isSome_iff (x_series y_series : List ℝ) (j : ℤ)
    (hlen : y_series.length = x_series.length) :
    (extrapolate_coordinates x_series y_series j).isSome = true ↔
      -(x_series.length : ℤ) + 5 ≤ j ∧ j + 1 < (x_series.length : ℤ) := by
  constructor
  · intro h
    obtain ⟨e, he⟩ := Option.isSome_iff_exists.mp h
    unfold extrapolate_coordinates at he
    simp only [Option.bind_eq_bind, Option.bind_eq_some, Option.pure_def,
      Option.some.injEq] at he
    obtain ⟨x, hx, y, hy, nx, hnx, ny, hny, xh, hxh, yh, hyh, -⟩ := he
    have h1 := (pyGet_isSome_iff x_series (j + 1)).mp (by rw [hnx]; rfl)
    have h2 := (pyGet_isSome_iff x_series (j - 5)).mp (by rw [hxh]; rfl)
    omega
  · intro h
    obtain ⟨x, hx⟩ :=
      Option.isSome_iff_exists.mp ((pyGet_isSome_iff x_series j).mpr (by omega))
    obtain ⟨y, hy⟩ :=
      Option.isSome_iff_exists.mp ((pyGet_isSome_iff y_series j).mpr (by rw [hlen]; omega))
    obtain ⟨nx, hnx⟩ :=
      Option.isSome_iff_exists.mp ((pyGet_isSome_iff x_series (j + 1)).mpr (by omega))
    obtain ⟨ny, hny⟩ :=
      Option.isSome_iff_exists.mp
        ((pyGet_isSome_iff y_series (j + 1)).mpr (by rw [hlen]; omega))
    obtain ⟨xh, hxh⟩ :=
      Option.isSome_iff_exists.mp ((pyGet_isSome_iff x_series (j - 5)).mpr (by omega))
    obtain ⟨yh, hyh⟩ :=
      Option.isSome_iff_exists.mp
        ((pyGet_isSome_iff y_series (j - 5)).mpr (by rw [hlen]; omega))
    simp [extrapolate_coordinates, hx, hy, hnx, hny, hxh, hyh]

/-- Claim C8, counterexample: at j = 0 on series of length 7 the
access j - 5 = -5 is negative, which the claim says must raise an index
error, yet pandas positional indexing wraps it to position 2 from the
end of the range and the call succeeds. -/
theorem extrapolate_wraparound_cx :
    (0 : ℤ) - 5 < 0 ∧
      (extrapolate_coordinates [0, 1, 2, 3, 4, 5, 6] [0, 1, 2, 3, 4, 5, 6] 0).isSome =
        true := by
  constructor
  · norm_num
  · rfl

/-- Claim C8 (amended): for series of equal length, the call raises an
index error iff j + 1 >= length or j - 5 < -length; negative positions
down to -length wrap around Python-style instead of raising, and in
particular every j in the window [5, length - 2] succeeds. -/
theorem extrapolate_none_iff (x_series y_series : List ℝ) (j : ℤ)
    (hlen : y_series.length = x_series.length) :
    extrapolate_coordinates x_series y_series j = none ↔
      ¬ (-(x_series.length : ℤ) + 5 ≤ j ∧ j + 1 < (x_series.length : ℤ)) := by
  rw [← Option.not_isSome_iff_eq_none]
  exact not_congr (extrapolate_isSome_iff x_series y_series j hlen)

/-- Claim C8, witness: the amended theorem applied at the concrete
out-of-window index 10 on series of length 7, where the call raises. -/
theorem extrapolate_none_iff_witness :
    extrapolate_coordinates [0, 1, 2, 3, 4, 5, 6] [0, 1, 2, 3, 4, 5, 6] 10 = none :=
  (extrapolate_none_iff _ _ 10 rfl).mpr (by norm_num)

/-- Each member of a successful mapOpt run comes from a source element
on which the step succeeded. -/
lemma mapOpt_mem {α β : Type*} (f : α → Option β) :
    ∀ (l : List α) (bs : List β), mapOpt f l = some bs → ∀ b ∈ bs, ∃ a ∈ l, f a = some b := by
  intro l
  induction l with
  | nil =>
    intro bs h b hb
    obtain rfl : ([] : List β) = bs := Option.some.inj h
    cases hb
  | cons a as ih =>
    intro bs h b hb
    simp only [mapOpt] at h
    cases hfa : f a with
    | none => rw [hfa] at h; cases h
    | some b0 =>
      rw [hfa] at h
      cases hrest : mapOpt f as with
      | none => rw [hrest] at h; cases h
      | some bs0 =>
        rw [hrest] at h
        obtain rfl : b0 :: bs0 = bs := Option.some.inj h
        rcases List.mem_cons.mp hb with rfl | hb0
        · exact ⟨a, List.mem_cons_self a as, hfa⟩
        · obtain ⟨a', ha', hfa'⟩ := ih bs0 hrest b hb0
          exact ⟨a', List.mem_cons_of_mem a ha', hfa'⟩

/-- When every step succeeds, mapOpt succeeds with a list of the same
length. -/
lemma mapOpt_forall_some {α β : Type*} (f : α → Option β) :
    ∀ l : List α, (∀ a ∈ l, (f a).isSome = true) →
      ∃ bs, mapOpt f l = some bs ∧ bs.length = l.length := by
  intro l
  induction l with
  | nil => exact fun _ => ⟨[], rfl, rfl⟩
  | cons a as ih =>
    intro h
    obtain ⟨b, hb⟩ := Option.isSome_iff_exists.mp (h a (List.mem_cons_self a as))
    obtain ⟨bs, hbs, hlen⟩ := ih fun x hx => h x (List.mem_cons_of_mem a hx)
    refine ⟨b :: bs, ?_, by simp [hlen]⟩
    simp only [mapOpt, hb, hbs]

/-- Shape of any record built by the extract_one loop body. -/
lemma extract_one_mem {etf : String} {x_series y_series : List ℝ} {dates : List ℕ}
    {trailing_days : ℕ} {circle_radius : ℝ} {recs : List Record}
    (h : extract_one etf x_series y_series dates trailing_days circle_radius = some recs) :
    ∀ rec ∈ recs, ∃ (j : ℕ) (e : Extrap) (d : ℕ),
      j ∈ List.range' trailing_days (x_series.length - 1 - trailing_days) ∧
      extrapolate_coordinates x_series y_series (j : ℤ) = some e ∧
      pyGet dates (j : ℤ) = some d ∧
      rec = ⟨etf, d, e.x_point, e.y_point, categorize_point e.x_point e.y_point,
        categorize_radius e.x_point e.y_point circle_radius, e.x_historic, e.y_historic,
        atan2 (e.y_point - e.y_historic) (e.x_point - e.x_historic),
        e.projected_x, e.projected_y, e.moving_towards,
        categorize_radius e.x_point e.y_point circle_radius⟩ := by
  intro rec hrec
  obtain ⟨j, hj, hfj⟩ := mapOpt_mem _ _ _ h rec hrec
  simp only [Option.bind_eq_bind, Option.bind_eq_some, Option.pure_def,
    Option.some.injEq] at hfj
  obtain ⟨e, he, d, hd, hrec'⟩ := hfj
  exact ⟨j, e, d, hj, he, hd, hrec'.symm⟩

/-- Every record of a successful extract_coordinates run belongs to the
extract_one output of one of the listed instruments. -/
lemma extract_coordinates_mem {etf_names : List String}
    {jr jm rs : String → List ℝ} {dates : String → List ℕ}
    {t : ℕ} {r : ℝ} {recs : List Record}
    (h : extract_coordinates etf_names jr jm rs dates t r = some recs) :
    ∀ rec ∈ recs, ∃ etf ∈ etf_names, ∃ l,
      extract_one etf (jr etf) (jm etf) (dates etf) t r = some l ∧ rec ∈ l := by
  intro rec hrec
  unfold extract_coordinates at h
  rw [Option.map_eq_some'] at h
  obtain ⟨ls, hls, rfl⟩ := h
  rw [List.mem_flatten] at hrec
  obtain ⟨l, hl, hrecl⟩ := hrec
  obtain ⟨etf, hetf, hone⟩ := mapOpt_mem _ _ _ hls l hl
  exact ⟨etf, hetf, l, hone, hrecl⟩

/-- Claim C9: in every record produced by extract_coordinates the
Projected Signal Strength column equals the Current Signal Strength
column; the signal is never recomputed at the projected point. -/
theorem extract_projected_signal_eq (etf_names : List String)
    (jdk_rs_ratios jdk_rs_momentums rs_ratios : String → List ℝ)
    (dates : String → List ℕ) (trailing_days : ℕ) (circle_radius : ℝ)
    (recs : List Record)
    (h : extract_coordinates etf_names jdk_rs_ratios jdk_rs_momentums rs_ratios dates
        trailing_days circle_radius = some recs) :
    ∀ rec ∈ recs, rec.projected_signal = rec.current_signal := by
  intro rec hrec
  obtain ⟨etf, -, l, hone, hrecl⟩ := extract_coordinates_mem h rec hrec
  obtain ⟨j, e, d, -, -, -, rfl⟩ := extract_one_mem hone rec hrecl
  rfl

/-- Claim C1 (amended): in every record emitted by extract_coordinates
the Projected Category column holds the moving_towards label, i.e. the
quadrant of the actual next point (x[j+1], y[j+1]) classified by its
absolute coordinates; the displacement-based projected_category that
extrapolate_coordinates also computes is dropped by extract_coordinates.
-/
theorem extract_projected_category_eq (etf_names : List String)
    (jdk_rs_ratios jdk_rs_momentums rs_ratios : String → List ℝ)
    (dates : String → List ℕ) (trailing_days : ℕ) (circle_radius : ℝ)
    (recs : List Record)
    (h : extract_coordinates etf_names jdk_rs_ratios jdk_rs_momentums rs_ratios dates
        trailing_days circle_radius = some recs) :
    ∀ rec ∈ recs, ∃ (j : ℕ) (nx ny : ℝ),
      pyGet (jdk_rs_ratios rec.etf) ((j : ℤ) + 1) = some nx ∧
      pyGet (jdk_rs_momentums rec.etf) ((j : ℤ) + 1) = some ny ∧
      pyGet (jdk_rs_ratios rec.etf) (j : ℤ) = some rec.current_x ∧
      pyGet (jdk_rs_momentums rec.etf) (j : ℤ) = some rec.current_y ∧
      rec.projected_category = categorize_point nx ny := by
  intro rec hrec
  obtain ⟨etf, -, l, hone, hrecl⟩ := extract_coordinates_mem h rec hrec
  obtain ⟨j, e, d, -, he, -, rfl⟩ := extract_one_mem hone rec hrecl
  obtain ⟨hx, hy, -, -, ⟨nx, ny, hnx, hny, hmt⟩, -, -, -⟩ :=
    extrapolate_fields _ _ _ _ he
  exact ⟨j, nx, ny, hnx, hny, hx, hy, hmt⟩

/-- The concrete single-instrument run succeeds, and its record (built
at j = 20) classifies the next point (1, 0) in the Projected Category
column, while the projected displacement is (-1, 0). -/
lemma cx_run : ∃ recs rec,
    extract_coordinates ["A"] (fun _ => cxs) (fun _ => cys) (fun _ => [])
      (fun _ => List.range 22) 20 (1 / 10) = some recs ∧ rec ∈ recs ∧
    rec.projected_category = categorize_point 1 0 ∧
    rec.projected_x - rec.current_x = -1 ∧ rec.projected_y - rec.current_y = 0 := by
  have hget : extract_coordinates ["A"] (fun _ => cxs) (fun _ => cys) (fun _ => [])
      (fun _ => List.range 22) 20 (1 / 10) =
      some ((extract_coordinates ["A"] (fun _ => cxs) (fun _ => cys) (fun _ => [])
        (fun _ => List.range 22) 20 (1 / 10)).getD []) := rfl
  set recs := (extract_coordinates ["A"] (fun _ => cxs) (fun _ => cys) (fun _ => [])
    (fun _ => List.range 22) 20 (1 / 10)).getD [] with hrecsdef
  have hlen1 : recs.length = 1 := by rw [hrecsdef]; rfl
  obtain ⟨rec, hmem⟩ := List.exists_mem_of_ne_nil recs
    (by intro h0; rw [h0] at hlen1; cases hlen1)
  obtain ⟨etf, hetf, l, honep, hrecl⟩ := extract_coordinates_mem hget rec hmem
  have hetfA : etf = "A" := by simpa using hetf
  subst hetfA
  obtain ⟨j, e, d, hj, he, hd, hreceq⟩ := extract_one_mem honep rec hrecl
  have hj20 : j = 20 := by
    rw [List.mem_range'_1] at hj
    rw [show cxs.length = 22 from rfl] at hj
    omega
  subst hj20
  obtain ⟨hx, hy, hxh, hyh, ⟨nx, ny, hnx, hny, hmt⟩, hpx, hpy, -⟩ :=
    extrapolate_fields _ _ _ _ he
  have hex : e.x_point = 0 := by
    rw [show pyGet cxs (((20 : ℕ) : ℤ)) = some (0 : ℝ) from rfl] at hx
    exact (Option.some.inj hx).symm
  have hey : e.y_point = 0 := by
    rw [show pyGet cys (((20 : ℕ) : ℤ)) = some (0 : ℝ) from rfl] at hy
    exact (Option.some.inj hy).symm
  have hexh : e.x_historic = 1 := by
    rw [show pyGet cxs (((20 : ℕ) : ℤ) - 5) = some (1 : ℝ) from rfl] at hxh
    exact (Option.some.inj hxh).symm
  have heyh : e.y_historic = 0 := by
    rw [show pyGet cys (((20 : ℕ) : ℤ) - 5) = some (0 : ℝ) from rfl] at hyh
    exact (Option.some.inj hyh).symm
  have hnx1 : nx = 1 := by
    rw [show pyGet cxs (((20 : ℕ) : ℤ) + 1) = some (1 : ℝ) from rfl] at hnx
    exact (Option.some.inj hnx).symm
  have hny0 : ny = 0 := by
    rw [show pyGet cys (((20 : ℕ) : ℤ) + 1) = some (0 : ℝ) from rfl] at hny
    exact (Option.some.inj hny).symm
  refine ⟨recs, rec, hget, hmem, ?_, ?_, ?_⟩
  · rw [hreceq]
    show e.moving_towards = categorize_point 1 0
    rw [hmt, hnx1, hny0]
  · rw [hreceq]
    show e.projected_x - e.x_point = -1
    rw [hpx, hex, hexh]
    norm_num
  · rw [hreceq]
    show e.projected_y - e.y_point = 0
    rw [hpy, hey, heyh]
    norm_num

/-- Claim C1, counterexample: on a concrete run the record's Projected
Category is Leading, the quadrant of the absolute next point (1, 0),
while classifying the projected displacement (x_change, y_change) =
(-1, 0) gives Improving; the column does not hold the displacement
classification. -/
theorem extract_projected_category_cx :
    ∃ recs rec,
      extract_coordinates ["A"] (fun _ => cxs) (fun _ => cys) (fun _ => [])
        (fun _ => List.range 22) 20 (1 / 10) = some recs ∧ rec ∈ recs ∧
      rec.projected_category ≠
        categorize_point (rec.projected_x - rec.current_x)
          (rec.projected_y - rec.current_y) := by
  obtain ⟨recs, rec, hrecs, hmem, hcat, hdx, hdy⟩ := cx_run
  refine ⟨recs, rec, hrecs, hmem, ?_⟩
  rw [hcat, hdx, hdy]
  have hL : categorize_point 1 0 = "Leading" := by
    unfold categorize_point
    rw [if_pos ⟨by norm_num, le_refl 0⟩]
  have hI : categorize_point (-1 : ℝ) 0 = "Improving" := by
    unfold categorize_point
    rw [if_neg fun hc => absurd hc.1 (by norm_num), if_pos ⟨by norm_num, le_refl 0⟩]
  rw [hL, hI]
  decide

/-- Claim C1, witness: the amended theorem applied to the concrete run.
-/
theorem extract_projected_category_eq_witness :
    ∃ recs, extract_coordinates ["A"] (fun _ => cxs) (fun _ => cys) (fun _ => [])
        (fun _ => List.range 22) 20 (1 / 10) = some recs ∧
      ∃ rec ∈ recs, ∃ (j : ℕ) (nx ny : ℝ),
        pyGet cxs ((j : ℤ) + 1) = some nx ∧ pyGet cys ((j : ℤ) + 1) = some ny ∧
        pyGet cxs (j : ℤ) = some rec.current_x ∧
        pyGet cys (j : ℤ) = some rec.current_y ∧
        rec.projected_category = categorize_point nx ny := by
  obtain ⟨recs, rec, hrecs, hmem, -, -, -⟩ := cx_run
  exact ⟨recs, hrecs, rec, hmem,
    extract_projected_category_eq _ _ _ _ _ _ _ _ hrecs rec hmem⟩

/-- Claim C9, witness: the projected and current signal columns agree
on every record of the concrete run. -/
theorem extract_projected_signal_eq_witness :
    ∃ recs, extract_coordinates ["A"] (fun _ => cxs) (fun _ => cys) (fun _ => [])
        (fun _ => List.range 22) 20 (1 / 10) = some recs ∧
      ∀ rec ∈ recs, rec.projected_signal = rec.current_signal := by
  obtain ⟨recs, rec, hrecs, -, -, -, -⟩ := cx_run
  exact ⟨recs, hrecs, extract_projected_signal_eq _ _ _ _ _ _ _ _ hrecs⟩

/-- With aligned series and date lengths, the per-instrument loop of
extract_coordinates succeeds with trailing_days = 20 and yields one
record per loop index, each tagged with the instrument name. -/
lemma extract_one_spec (etf : String) (xs ys : List ℝ) (dates : List ℕ) (r : ℝ)
    (hy : ys.length = xs.length) (hd : dates.length = xs.length) :
    ∃ l, extract_one etf xs ys dates 20 r = some l ∧ l.length = xs.length - 21 ∧
      ∀ rec ∈ l, rec.etf = etf := by
  have key := mapOpt_forall_some
    (fun j : ℕ =>
      (extrapolate_coordinates xs ys (j : ℤ)).bind fun e =>
        (pyGet dates (j : ℤ)).bind fun d =>
          some (⟨etf, d, e.x_point, e.y_point, categorize_point e.x_point e.y_point,
            categorize_radius e.x_point e.y_point r, e.x_historic, e.y_historic,
            atan2 (e.y_point - e.y_historic) (e.x_point - e.x_historic),
            e.projected_x, e.projected_y, e.moving_towards,
            categorize_radius e.x_point e.y_point r⟩ : Record))
    (List.range' 20 (xs.length - 1 - 20))
    (by
      intro j hj
      rw [List.mem_range'_1] at hj
      obtain ⟨e, he⟩ := Option.isSome_iff_exists.mp
        ((extrapolate_isSome_iff xs ys (j : ℤ) hy).mpr (by omega))
      obtain ⟨d, hdj⟩ := Option.isSome_iff_exists.mp
        ((pyGet_isSome_iff dates (j : ℤ)).mpr (by rw [hd]; omega))
      simp only [he, hdj, Option.some_bind, Option.isSome_some])
  obtain ⟨l, hl, hlen⟩ := key
  refine ⟨l, hl, ?_, ?_⟩
  · rw [hlen, List.length_range']
    omega
  · intro rec hrec
    obtain ⟨j, -, hfj⟩ := mapOpt_mem _ _ _ hl rec hrec
    simp only [Option.bind_eq_some, Option.some.injEq] at hfj
    obtain ⟨e, -, d, -, hrec'⟩ := hfj
    rw [← hrec']

/-- Multiplicity form of the record count: a run over aligned series
holds count(name) * (N - 21) records for the instrument name, where N
is the length of that instrument's x-series. -/
lemma extract_coordinates_count_general (etf_names : List String)
    (jr jm rs : String → List ℝ) (dates : String → List ℕ) (r : ℝ)
    (hlen : ∀ e ∈ etf_names, (jm e).length = (jr e).length ∧
      (dates e).length = (jr e).length)
    (name : String) :
    ∃ recs, extract_coordinates etf_names jr jm rs dates 20 r = some recs ∧
      (recs.filter fun rec => rec.etf == name).length =
        etf_names.count name * ((jr name).length - 21) := by
  induction etf_names with
  | nil => exact ⟨[], rfl, by simp⟩
  | cons e rest ih =>
    obtain ⟨l, hl, hlenl, hetf⟩ := extract_one_spec e (jr e) (jm e) (dates e) r
      (hlen e (List.mem_cons_self e rest)).1 (hlen e (List.mem_cons_self e rest)).2
    obtain ⟨recs', hrecs', hcount'⟩ := ih fun x hx => hlen x (List.mem_cons_of_mem e hx)
    have hls : ∃ ls, mapOpt
        (fun etf => extract_one etf (jr etf) (jm etf) (dates etf) 20 r) rest =
          some ls ∧ ls.flatten = recs' := by
      have h := hrecs'
      unfold extract_coordinates at h
      rw [Option.map_eq_some'] at h
      exact h
    obtain ⟨ls, hls', hflat⟩ := hls
    refine ⟨l ++ recs', ?_, ?_⟩
    · unfold extract_coordinates
      rw [Option.map_eq_some']
      refine ⟨l :: ls, ?_, by rw [List.flatten_cons, hflat]⟩
      simp only [mapOpt, hl, hls']
    · rw [List.filter_append, List.length_append, hcount', List.count_cons]
      by_cases hname : e = name
      · subst hname
        have hfl : l.filter (fun rec => rec.etf == e) = l := by
          rw [List.filter_eq_self]
          intro rec hrec
          rw [hetf rec hrec]
          simp
        rw [hfl, hlenl, if_pos (by simp)]
        ring
      · have hfl : l.filter (fun rec => rec.etf == name) = [] := by
          rw [List.filter_eq_nil]
          intro rec hrec
          rw [hetf rec hrec]
          simp [hname]
        rw [hfl, if_neg (by simp [hname])]
        simp

/-- Claim C4: with trailing_days = 20 a run of extract_coordinates over
aligned series produces exactly max(0, N - 20 - 1) records for each
instrument occurring once in etf_names, N the length of its series
(truncated natural subtraction N - 21 realizes the max with 0). -/
theorem extract_coordinates_count (etf_names : List String)
    (jr jm rs : String → List ℝ) (dates : String → List ℕ) (r : ℝ)
    (hlen : ∀ e ∈ etf_names, (jm e).length = (jr e).length ∧
      (dates e).length = (jr e).length)
    (name : String) (hname : etf_names.count name = 1) :
    ∃ recs, extract_coordinates etf_names jr jm rs dates 20 r = some recs ∧
      (recs.filter fun rec => rec.etf == name).length = (jr name).length - 21 := by
  obtain ⟨recs, h1, h2⟩ :=
    extract_coordinates_count_general etf_names jr jm rs dates r hlen name
  rw [hname, one_mul] at h2
  exact ⟨recs, h1, h2⟩

/-- Claim C4, witness: the concrete run over the 22-point series holds
exactly 22 - 21 = 1 record for its instrument. -/
theorem extract_coordinates_count_witness :
    ∃ recs, extract_coordinates ["A"] (fun _ => cxs) (fun _ => cys) (fun _ => [])
        (fun _ => List.range 22) 20 (1 / 10) = some recs ∧
      (recs.filter fun rec => rec.etf == "A").length = 1 := by
  obtain ⟨recs, h1, h2⟩ := extract_coordinates_count ["A"] (fun _ => cxs) (fun _ => cys)
    (fun _ => []) (fun _ => List.range 22) (1 / 10)
    (by intro e he; exact ⟨rfl, rfl⟩) "A" (by simp)
  exact ⟨recs, h1, h2⟩
